import Mathlib

/-!
Verification of the broker-local rebalancing core
(`kafka_cluster_manager/cluster_info/broker.py`).

The Python `Broker` object owns a set of `Partition` references while every
`Partition` keeps an ordered list of the brokers replicating it (first element
is the leader).  We embed this cyclic object graph as a `ClusterState` arena:
brokers and partitions are addressed by ids, `brokerParts` maps a broker id to
the list of partitions it replicates (the Python set), and `replicas` maps a
partition to its ordered broker list.  Per the spec's data model a partition is
identified by its (topic, partition-index) pair, so that pair is the key type.

Fallible operations (`remove_partition`'s ValueError, `add_partition`'s
assertion) return `Except`; because Python exceptions leave in-place mutations
behind, the error value carries the state at the moment of raising.
-/

/-- Broker ids are opaque comparable identifiers; we use naturals. -/
abbrev BId := Nat

/-- Modelled from the spec: `Partition` is not part of the given source; its
minimal required shape (§3) identifies a partition by its owning topic and its
index within the topic.  `topicId` stands for `partition.topic.id`. -/
structure PKey where
  topicId : Nat
  partitionId : Nat
deriving DecidableEq

/-- The broker/partition graph: domains of live broker and partition ids plus
the two coupled collections every mutation must keep consistent. -/
structure ClusterState where
  brokers : List BId
  parts : List PKey
  replicas : PKey → List BId
  brokerParts : BId → List PKey

/-- Errors raised by the Python code: `assert` (AssertionError) in
`add_partition`, `ValueError(msg)` in `remove_partition` and in `min` over an
empty sequence. -/
inductive OpError where
  | assertionError : OpError
  | valueError : String → OpError
deriving DecidableEq

/-- The message of `remove_partition`'s ValueError, following the source's
format string `'Partition: {topic_id}:{partition_id} not found in broker
{broker_id}'`. -/
def notFoundMsg (topicId partitionId brokerId : Nat) : String :=
  "Partition: " ++ toString topicId ++ ":" ++ toString partitionId ++
    " not found in broker " ++ toString brokerId

/-- The message of the ValueError Python's `min` raises on an empty sequence. -/
def emptyMinMsg : String := "min() arg is an empty sequence"

/-- Recognizer for messages of the `remove_partition` "not found" form: they
start with the 11 characters `"Partition: "`. -/
def isNotFoundShape (m : String) : Bool :=
  m.data.take 11 == "Partition: ".data

/-- Result of a fallible mutation: on error the carried state is the in-place
state at the moment the exception was raised. -/
abbrev MRes := Except (OpError × ClusterState) ClusterState

/-- State when a call returned, normally or exceptionally. -/
def stateAfter : MRes → ClusterState
  | .ok s => s
  | .error (_, s) => s

/-- Whether a fallible call returned normally. -/
def resultOk : MRes → Bool
  | .ok _ => true
  | .error _ => false

/-- The mutation block of `remove_partition`: `self._partitions.remove(p)`
(set removal, i.e. erase from the broker's list) followed by
`partition.replicas.remove(self)` (Python list `remove`: first occurrence). -/
def removeEffect (b : BId) (p : PKey) (s : ClusterState) : ClusterState :=
  { s with
    brokerParts := fun b2 => if b2 = b then (s.brokerParts b).erase p else s.brokerParts b2,
    replicas := fun q => if q = p then (s.replicas p).erase b else s.replicas q }

/-- Method `Broker.remove_partition`: if the partition is held, remove it from the
broker's set and the broker from its replica list; otherwise raise ValueError
with the "not found" message and no mutation. -/
def remove_partition (b : BId) (p : PKey) (s : ClusterState) : MRes :=
  if p ∈ s.brokerParts b then
    .ok (removeEffect b p s)
  else
    .error (.valueError (notFoundMsg p.topicId p.partitionId b), s)

/-- The mutation block of `add_partition`: `self._partitions.add(p)` and
`partition.replicas.append(self)` (append at the end). -/
def addEffect (b : BId) (p : PKey) (s : ClusterState) : ClusterState :=
  { s with
    brokerParts := fun b2 => if b2 = b then s.brokerParts b2 ++ [p] else s.brokerParts b2,
    replicas := fun q => if q = p then s.replicas q ++ [b] else s.replicas q }

/-- Method `Broker.add_partition`: `assert(partition not in self._partitions)`, then
add to the set and append the broker to the replica list. -/
def add_partition (b : BId) (p : PKey) (s : ClusterState) : MRes :=
  if p ∈ s.brokerParts b then
    .error (.assertionError, s)
  else
    .ok (addEffect b p s)

/-- Method `Broker.move_partition`: `self.remove_partition(p)` then
`broker_destination.add_partition(p)`; an exception in either half propagates
with whatever mutations already happened. -/
def move_partition (src : BId) (p : PKey) (dst : BId) (s : ClusterState) : MRes :=
  match remove_partition src p s with
  | .error e => .error e
  | .ok s1 => add_partition dst p s1

/-- Modelled from the spec: `Partition.count_siblings(partition_set)` is not in
the given source; per §3 it is the number of partitions in the given collection
sharing this partition's topic. -/
def count_siblings (p : PKey) (ps : List PKey) : Nat :=
  (ps.filter fun q => q.topicId == p.topicId).length

/-- Fold step of Python's `min(..., key=k)`: keep the earliest element
whose key is minimal (a later element replaces the current one only on a
strictly smaller key). -/
def selectMin (k : α → Nat) (x : α) (xs : List α) : α :=
  xs.foldl (fun m y => if k y < k m then y else m) x

/-- Python's `min(l, key=k)`: `none` on the empty list (ValueError), otherwise
the first element of minimal key. -/
def minByKey (k : α → Nat) : List α → Option α
  | [] => none
  | x :: xs => some (selectMin k x xs)

/-- Method `Broker._get_preffered_partition` (source spelling): the source partition
with the least siblings among the destination partitions, paired with that
sibling count; `min` over an empty candidate list raises ValueError. -/
def get_preffered_partition (source dest : List PKey) : Except OpError (PKey × Nat) :=
  match minByKey (fun p => count_siblings p dest) source with
  | none => .error (.valueError emptyMinMsg)
  | some p => .ok (p, count_siblings p dest)

/-- List `valid_source_partitions`: partitions on `self` absent from the
destination broker. -/
def validSourcePartitions (self dest : BId) (s : ClusterState) : List PKey :=
  (s.brokerParts self).filter fun p => decide (p ∉ s.brokerParts dest)

/-- List `valid_dest_partitions`: partitions on the destination absent from
`self`. -/
def validDestPartitions (self dest : BId) (s : ClusterState) : List PKey :=
  (s.brokerParts dest).filter fun p => decide (p ∉ s.brokerParts self)

/-- Method `Broker.get_eligible_partition`: best eligible partition of `self` to
transfer to the destination broker, with its sibling count. -/
def get_eligible_partition (self dest : BId) (s : ClusterState) : Except OpError (PKey × Nat) :=
  get_preffered_partition (validSourcePartitions self dest s) (validDestPartitions self dest s)

/-- The pair returned by a successful `get_eligible_partition` (dummy value on
the error case; the theorems only use it when the call succeeds). -/
def eligiblePair (self dest : BId) (s : ClusterState) : PKey × Nat :=
  match get_eligible_partition self dest s with
  | .ok pc => pc
  | .error _ => (⟨0, 0⟩, 0)

/-- Bool form of the minimality of the chosen sibling count over a candidate
partition `q` of `self`. -/
def minimalB (self dest : BId) (s : ClusterState) (q : PKey) : Bool :=
  decide ((eligiblePair self dest s).2 ≤ count_siblings q (validDestPartitions self dest s))

/-- Modelled from the spec: `Partition.swap_leader(new_leader)` is not in the
given source; per §6 it moves the given follower to the front of the replica
ordering while preserving all other members. -/
def swap_leader (p : PKey) (newLeader : BId) (s : ClusterState) : ClusterState :=
  { s with
    replicas := fun q => if q = p then newLeader :: (s.replicas p).erase newLeader else s.replicas q }

/-- The follower test of `decrease_leader_count`:
`leaders_per_broker[f] <= opt_count` and
`leaders_per_broker[self] - leaders_per_broker[f] > 1`. -/
def swapCond (lpb : BId → Int) (self : BId) (opt : Int) (f : BId) : Bool :=
  decide (lpb f ≤ opt) && decide (lpb self - lpb f > 1)

/-- Counter update `leaders_per_broker[new_leader] += 1` then `leaders_per_broker[self] -= 1`
applied in that order. -/
def bump (self f : BId) (lpb : BId → Int) : BId → Int :=
  let l1 := fun x => if x = f then lpb f + 1 else lpb x
  fun x => if x = self then l1 self - 1 else l1 x

/-- One leadership swap performed by `decrease_leader_count`, recording the
leader counts read immediately before the swap. -/
structure DlcEvent where
  part : PKey
  newLeader : BId
  lpbSelfBefore : Int
  lpbNewBefore : Int
deriving DecidableEq

/-- Result of a `decrease_leader_count` call: final cluster state, final
`leaders_per_broker`, and the swaps performed in order. -/
structure LeaderRun where
  state : ClusterState
  leaders : BId → Int
  swaps : List DlcEvent

/-- The candidate loop of `decrease_leader_count`: for each possible victim
partition scan its followers (`replicas[1:]`) for the first one passing
`swapCond`; on success swap leadership, adjust the counters and stop scanning
this partition; after each candidate return early once
`leaders_per_broker[self] == opt_count`. -/
def dlcGo (self : BId) (opt : Int) : List PKey → ClusterState → (BId → Int) → LeaderRun
  | [], s, lpb => ⟨s, lpb, []⟩
  | p :: rest, s, lpb =>
    match (s.replicas p).tail.find? (swapCond lpb self opt) with
    | some f =>
      let s1 := swap_leader p f s
      let lpb1 := bump self f lpb
      let ev : DlcEvent := ⟨p, f, lpb self, lpb f⟩
      if lpb1 self = opt then ⟨s1, lpb1, [ev]⟩
      else
        let r := dlcGo self opt rest s1 lpb1
        ⟨r.state, r.leaders, ev :: r.swaps⟩
    | none =>
      if lpb self = opt then ⟨s, lpb, []⟩
      else dlcGo self opt rest s lpb

/-- Method `Broker.decrease_leader_count`: filter the given cluster partitions down to
those currently led by `self` with more than one replica, then run the
candidate loop.  `partitions` is the caller-supplied collection in its
(arbitrary) iteration order. -/
def decrease_leader_count (self : BId) (partitions : List PKey) (lpb : BId → Int)
    (opt : Int) (s : ClusterState) : LeaderRun :=
  dlcGo self opt
    (partitions.filter fun p =>
      ((s.replicas p).head? == some self) && decide (1 < (s.replicas p).length))
    s lpb

/-- Bool check that no recorded swap ever took `self`'s leader count below
`opt` (the count right after a swap is `lpbSelfBefore - 1`). -/
def neverBelow (opt : Int) (evs : List DlcEvent) : Bool :=
  evs.all fun ev => decide (opt ≤ ev.lpbSelfBefore - 1)

/-- A call into the mutation interface, as issued by the orchestrator. -/
inductive Op where
  | add (b : BId) (p : PKey)
  | remove (b : BId) (p : PKey)
  | move (src : BId) (p : PKey) (dst : BId)

/-- Dispatch an orchestrator call to the corresponding broker method. -/
def applyOp : Op → ClusterState → MRes
  | .add b p, s => add_partition b p s
  | .remove b p, s => remove_partition b p s
  | .move a p c, s => move_partition a p c s

/-- States after each successful call of a call sequence; a failing call ends
the sequence of successful calls. -/
def statesOf : List Op → ClusterState → List ClusterState
  | [], _ => []
  | op :: rest, s =>
    match applyOp op s with
    | .ok s1 => s1 :: statesOf rest s1
    | .error _ => []

/-- An orchestrator call addresses brokers and partitions of the loaded
cluster topology. -/
def opWithin (s : ClusterState) : Op → Prop
  | .add b p => b ∈ s.brokers ∧ p ∈ s.parts
  | .remove b p => b ∈ s.brokers ∧ p ∈ s.parts
  | .move a p c => a ∈ s.brokers ∧ c ∈ s.brokers ∧ p ∈ s.parts

/-- Bool form of `opWithin`. -/
def opWithinB (s : ClusterState) : Op → Bool
  | .add b p => decide (b ∈ s.brokers) && decide (p ∈ s.parts)
  | .remove b p => decide (b ∈ s.brokers) && decide (p ∈ s.parts)
  | .move a p c => decide (a ∈ s.brokers) && decide (c ∈ s.brokers) && decide (p ∈ s.parts)

/-- Invariant I1: a partition is in a broker's set iff that broker is in the
partition's replica list (over the cluster's domains). -/
def Inv1 (s : ClusterState) : Prop :=
  ∀ b ∈ s.brokers, ∀ p ∈ s.parts, (p ∈ s.brokerParts b ↔ b ∈ s.replicas p)

/-- Invariant I2: no broker's partition set holds two entries for the same
(topic, partition-index) pair; since that pair is the partition key this is
freedom from duplicates. -/
def Inv2 (s : ClusterState) : Prop :=
  ∀ b ∈ s.brokers, (s.brokerParts b).Nodup

/-- Modelled from the spec: the Partition data model (§3) keeps `replicas`
duplicate-free ("uniqueness enforced"); the enforcing code is not in the given
source. -/
def RepWF (s : ClusterState) : Prop :=
  ∀ p ∈ s.parts, (s.replicas p).Nodup

/-- All standing well-formedness facts of a loaded topology. -/
def Invs (s : ClusterState) : Prop := Inv1 s ∧ Inv2 s ∧ RepWF s

/-- Bool check of Invariant I1. -/
def inv1B (s : ClusterState) : Bool :=
  s.brokers.all fun b => s.parts.all fun p =>
    decide ((p ∈ s.brokerParts b) ↔ (b ∈ s.replicas p))

/-- Bool check of Invariant I2. -/
def inv2B (s : ClusterState) : Bool :=
  s.brokers.all fun b => decide (s.brokerParts b).Nodup

/-- Bool check of the replica-uniqueness well-formedness. -/
def repWFB (s : ClusterState) : Bool :=
  s.parts.all fun p => decide (s.replicas p).Nodup

/-- Bool check of all three standing facts. -/
def invsB (s : ClusterState) : Bool :=
  inv1B s && inv2B s && repWFB s

/-! ## Helper lemmas -/

lemma notFoundMsg_shape (t pid bid : Nat) :
    isNotFoundShape (notFoundMsg t pid bid) = true := by
  have hl : ("Partition: ".data).length = 11 := by decide
  unfold isNotFoundShape notFoundMsg
  simp only [String.data_append, List.append_assoc]
  rw [← hl, List.take_left]
  simp

lemma removeEffect_brokerParts_self (b : BId) (p : PKey) (s : ClusterState) :
    (removeEffect b p s).brokerParts b = (s.brokerParts b).erase p := by
  simp [removeEffect]

lemma removeEffect_replicas_self (b : BId) (p : PKey) (s : ClusterState) :
    (removeEffect b p s).replicas p = (s.replicas p).erase b := by
  simp [removeEffect]

lemma addEffect_brokerParts_self (b : BId) (p : PKey) (s : ClusterState) :
    (addEffect b p s).brokerParts b = s.brokerParts b ++ [p] := by
  simp [addEffect]

lemma addEffect_replicas_self (b : BId) (p : PKey) (s : ClusterState) :
    (addEffect b p s).replicas p = s.replicas p ++ [b] := by
  simp [addEffect]

/-! ## C7: remove_partition error and success behaviour -/

/-- C7.  If `p` is not in broker `b`'s partition set, `remove_partition` fails
with a ValueError whose message names the partition's topic id, partition id
and the broker id, and returns with the state unchanged (the error carries the
entry state `s`); if `p` is held, it succeeds and the resulting state has `p`
removed from the broker's set and `b` removed from `p`'s replica list.  The
message-shape conjunct records that the message is of the "Partition: ..."
form (contrast with `emptyMinMsg` in C6's theorem). -/
theorem remove_partition_error_and_success (b : BId) (p : PKey) (s : ClusterState)
    (hbp : (s.brokerParts b).Nodup) (hrep : (s.replicas p).Nodup) :
    (if p ∈ s.brokerParts b
      then remove_partition b p s = .ok (removeEffect b p s)
      else remove_partition b p s =
        .error (.valueError (notFoundMsg p.topicId p.partitionId b), s)) ∧
    p ∉ (removeEffect b p s).brokerParts b ∧
    b ∉ (removeEffect b p s).replicas p ∧
    isNotFoundShape (notFoundMsg p.topicId p.partitionId b) = true := by
  refine ⟨?_, ?_, ?_, notFoundMsg_shape _ _ _⟩
  · by_cases h : p ∈ s.brokerParts b <;> simp [remove_partition, h]
  · rw [removeEffect_brokerParts_self]
    exact hbp.not_mem_erase
  · rw [removeEffect_replicas_self]
    exact hrep.not_mem_erase

def sW7 : ClusterState :=
  { brokers := [0], parts := [⟨1, 2⟩],
    replicas := fun p => if p = ⟨1, 2⟩ then [0] else [],
    brokerParts := fun b => if b = 0 then [⟨1, 2⟩] else [] }

/-- Witness for C7 at a state where broker 0 holds partition (1,2). -/
theorem remove_partition_error_and_success_witness :
    (if (⟨1, 2⟩ : PKey) ∈ sW7.brokerParts 0
      then remove_partition 0 ⟨1, 2⟩ sW7 = .ok (removeEffect 0 ⟨1, 2⟩ sW7)
      else remove_partition 0 ⟨1, 2⟩ sW7 =
        .error (.valueError (notFoundMsg 1 2 0), sW7)) ∧
    (⟨1, 2⟩ : PKey) ∉ (removeEffect 0 ⟨1, 2⟩ sW7).brokerParts 0 ∧
    (0 : BId) ∉ (removeEffect 0 ⟨1, 2⟩ sW7).replicas ⟨1, 2⟩ ∧
    isNotFoundShape (notFoundMsg 1 2 0) = true :=
  remove_partition_error_and_success 0 ⟨1, 2⟩ sW7 (by decide) (by decide)

/-! ## C9: add_partition appends the broker, preserving the leader -/

/-- C9.  For `p` not already held by broker `b`, `add_partition` succeeds,
appends `b` at the end of `p.replicas` leaving the existing order untouched,
and therefore (when `p.replicas` was non-empty) leaves the leader — the first
replica — unchanged. -/
theorem add_partition_appends_replica (b : BId) (p : PKey) (s : ClusterState)
    (h1 : p ∉ s.brokerParts b) (h2 : s.replicas p ≠ []) :
    add_partition b p s = .ok (addEffect b p s) ∧
    (addEffect b p s).replicas p = s.replicas p ++ [b] ∧
    ((addEffect b p s).replicas p).head? = (s.replicas p).head? := by
  refine ⟨by simp [add_partition, h1], addEffect_replicas_self b p s, ?_⟩
  rw [addEffect_replicas_self]
  cases hrep : s.replicas p with
  | nil => exact absurd hrep h2
  | cons a t => simp

def sW9 : ClusterState :=
  { brokers := [0, 1], parts := [⟨0, 0⟩],
    replicas := fun p => if p = ⟨0, 0⟩ then [1] else [],
    brokerParts := fun b => if b = 1 then [⟨0, 0⟩] else [] }

/-- Witness for C9: adding partition (0,0), currently led by broker 1, to
broker 0 keeps broker 1 as the leader. -/
theorem add_partition_appends_replica_witness :
    add_partition 0 ⟨0, 0⟩ sW9 = .ok (addEffect 0 ⟨0, 0⟩ sW9) ∧
    (addEffect 0 ⟨0, 0⟩ sW9).replicas ⟨0, 0⟩ = sW9.replicas ⟨0, 0⟩ ++ [0] ∧
    ((addEffect 0 ⟨0, 0⟩ sW9).replicas ⟨0, 0⟩).head? = (sW9.replicas ⟨0, 0⟩).head? :=
  add_partition_appends_replica 0 ⟨0, 0⟩ sW9 (by decide) (by decide)

/-! ## C3: move_partition transfers the partition -/

lemma move_partition_ok (src dst : BId) (p : PKey) (s : ClusterState)
    (h1 : p ∈ s.brokerParts src) (h2 : p ∉ s.brokerParts dst) :
    move_partition src p dst s = .ok (addEffect dst p (removeEffect src p s)) := by
  have hne : src ≠ dst := by rintro rfl; exact h2 h1
  have h2' : p ∉ (removeEffect src p s).brokerParts dst := by
    simp only [removeEffect]
    rw [if_neg (Ne.symm hne)]
    exact h2
  simp [move_partition, remove_partition, h1, add_partition, h2']

/-- C3.  For `p` held by `src` and a destination `dst` not holding `p`,
`move_partition` succeeds and afterwards `p` is absent from `src`'s partition
set, present in `dst`'s set, `src` is gone from `p.replicas`, and the new
replica list is the old one with `src` erased and `dst` appended at the end. -/
theorem move_partition_transfers (src dst : BId) (p : PKey) (s : ClusterState)
    (h1 : p ∈ s.brokerParts src) (h2 : p ∉ s.brokerParts dst)
    (h3 : (s.brokerParts src).Nodup) (h4 : (s.replicas p).Nodup) :
    resultOk (move_partition src p dst s) = true ∧
    p ∉ (stateAfter (move_partition src p dst s)).brokerParts src ∧
    p ∈ (stateAfter (move_partition src p dst s)).brokerParts dst ∧
    src ∉ (stateAfter (move_partition src p dst s)).replicas p ∧
    (stateAfter (move_partition src p dst s)).replicas p =
      (s.replicas p).erase src ++ [dst] := by
  have hne : src ≠ dst := by rintro rfl; exact h2 h1
  rw [move_partition_ok src dst p s h1 h2]
  have hbp : (addEffect dst p (removeEffect src p s)).brokerParts src =
      (s.brokerParts src).erase p := by
    simp only [addEffect, removeEffect]
    rw [if_neg hne]
    simp
  have hrep : (addEffect dst p (removeEffect src p s)).replicas p =
      (s.replicas p).erase src ++ [dst] := by
    rw [addEffect_replicas_self, removeEffect_replicas_self]
  refine ⟨rfl, ?_, ?_, ?_, hrep⟩
  · rw [stateAfter, hbp]
    exact h3.not_mem_erase
  · rw [stateAfter, addEffect_brokerParts_self]
    simp
  · rw [stateAfter, hrep]
    simp only [List.mem_append, List.mem_singleton]
    rintro (hs | hs)
    · exact h4.not_mem_erase hs
    · exact hne hs

def sW3 : ClusterState :=
  { brokers := [0, 1], parts := [⟨0, 0⟩],
    replicas := fun p => if p = ⟨0, 0⟩ then [0] else [],
    brokerParts := fun b => if b = 0 then [⟨0, 0⟩] else [] }

/-- Witness for C3: moving partition (0,0) from broker 0 to broker 1. -/
theorem move_partition_transfers_witness :
    resultOk (move_partition 0 ⟨0, 0⟩ 1 sW3) = true ∧
    (⟨0, 0⟩ : PKey) ∉ (stateAfter (move_partition 0 ⟨0, 0⟩ 1 sW3)).brokerParts 0 ∧
    (⟨0, 0⟩ : PKey) ∈ (stateAfter (move_partition 0 ⟨0, 0⟩ 1 sW3)).brokerParts 1 ∧
    (0 : BId) ∉ (stateAfter (move_partition 0 ⟨0, 0⟩ 1 sW3)).replicas ⟨0, 0⟩ ∧
    (stateAfter (move_partition 0 ⟨0, 0⟩ 1 sW3)).replicas ⟨0, 0⟩ =
      (sW3.replicas ⟨0, 0⟩).erase 0 ++ [1] :=
  move_partition_transfers 0 1 ⟨0, 0⟩ sW3 (by decide) (by decide) (by decide) (by decide)

/-! ## C10: a move whose add half asserts is not atomic -/

def sSelf : ClusterState :=
  { brokers := [0], parts := [⟨0, 0⟩],
    replicas := fun p => if p = ⟨0, 0⟩ then [0] else [],
    brokerParts := fun b => if b = 0 then [⟨0, 0⟩] else [] }

/-- Counterexample to C10 as stated: with `dst = self`, partition (0,0) is in
`self`'s set and `dst` already holds it, yet `move_partition` does not fail at
the assertion — the remove half first takes (0,0) out of the (shared) set, so
the add half's assert passes and the call succeeds. -/
theorem move_partition_self_move_succeeds :
    (⟨0, 0⟩ : PKey) ∈ sSelf.brokerParts 0 ∧
    resultOk (move_partition 0 ⟨0, 0⟩ 0 sSelf) = true := by decide

/-- C10 (amended: the destination is a broker other than `self`).  When `p` is
in `self`'s set and a distinct `dst` already holds `p`, the move fails at
`add_partition`'s assertion, and at the point of failure the source-side
removal has already happened and persists: the carried state is exactly
`removeEffect`, in which `p` is gone from `src`'s set, `src` is gone from
`p.replicas`, and `p` has one replica fewer than before. -/
theorem failed_move_leaves_partial_removal (src dst : BId) (p : PKey) (s : ClusterState)
    (h1 : p ∈ s.brokerParts src) (h2 : p ∈ s.brokerParts dst) (hne : src ≠ dst)
    (h3 : (s.brokerParts src).Nodup) (h4 : (s.replicas p).Nodup)
    (h5 : src ∈ s.replicas p) :
    move_partition src p dst s = .error (.assertionError, removeEffect src p s) ∧
    p ∉ (removeEffect src p s).brokerParts src ∧
    src ∉ (removeEffect src p s).replicas p ∧
    ((removeEffect src p s).replicas p).length + 1 = (s.replicas p).length := by
  have h2' : p ∈ (removeEffect src p s).brokerParts dst := by
    simp only [removeEffect]
    rw [if_neg (Ne.symm hne)]
    exact h2
  refine ⟨?_, ?_, ?_, ?_⟩
  · simp [move_partition, remove_partition, h1, add_partition, h2']
  · rw [removeEffect_brokerParts_self]
    exact h3.not_mem_erase
  · rw [removeEffect_replicas_self]
    exact h4.not_mem_erase
  · rw [removeEffect_replicas_self, List.length_erase_of_mem h5]
    have : 0 < (s.replicas p).length := by
      cases hrep : s.replicas p with
      | nil => rw [hrep] at h5; exact absurd h5 (List.not_mem_nil _)
      | cons a t => simp
    omega

def sW10 : ClusterState :=
  { brokers := [0, 1], parts := [⟨0, 0⟩],
    replicas := fun p => if p = ⟨0, 0⟩ then [0, 1] else [],
    brokerParts := fun b => if b = 0 then [⟨0, 0⟩] else if b = 1 then [⟨0, 0⟩] else [] }

/-- Witness for the amended C10: both brokers 0 and 1 hold (0,0); moving it
from 0 to 1 fails at the assertion with the source half already applied. -/
theorem failed_move_leaves_partial_removal_witness :
    move_partition 0 ⟨0, 0⟩ 1 sW10 = .error (.assertionError, removeEffect 0 ⟨0, 0⟩ sW10) ∧
    (⟨0, 0⟩ : PKey) ∉ (removeEffect 0 ⟨0, 0⟩ sW10).brokerParts 0 ∧
    (0 : BId) ∉ (removeEffect 0 ⟨0, 0⟩ sW10).replicas ⟨0, 0⟩ ∧
    ((removeEffect 0 ⟨0, 0⟩ sW10).replicas ⟨0, 0⟩).length + 1 =
      (sW10.replicas ⟨0, 0⟩).length :=
  failed_move_leaves_partial_removal 0 1 ⟨0, 0⟩ sW10 (by decide) (by decide) (by decide)
    (by decide) (by decide) (by decide)

/-! ## Python `min(..., key=...)` facts -/

lemma selectMin_cons (k : α → Nat) (x y : α) (ys : List α) :
    selectMin k x (y :: ys) = selectMin k (if k y < k x then y else x) ys := rfl

lemma selectMin_mem (k : α → Nat) (xs : List α) : ∀ x, selectMin k x xs ∈ x :: xs := by
  induction xs with
  | nil => intro x; simp [selectMin]
  | cons y ys ih =>
    intro x
    rw [selectMin_cons]
    by_cases hc : k y < k x
    · rw [if_pos hc]
      exact List.mem_cons_of_mem x (ih y)
    · rw [if_neg hc]
      rcases List.mem_cons.mp (ih x) with he | he
      · rw [he]; exact List.mem_cons_self x _
      · exact List.mem_cons_of_mem x (List.mem_cons_of_mem y he)

lemma selectMin_le_base (k : α → Nat) (xs : List α) : ∀ x, k (selectMin k x xs) ≤ k x := by
  induction xs with
  | nil => intro x; simp [selectMin]
  | cons y ys ih =>
    intro x
    rw [selectMin_cons]
    by_cases hc : k y < k x
    · rw [if_pos hc]; exact le_trans (ih y) (le_of_lt hc)
    · rw [if_neg hc]; exact ih x

lemma selectMin_le_mem (k : α → Nat) (xs : List α) : ∀ x, ∀ y ∈ xs, k (selectMin k x xs) ≤ k y := by
  induction xs with
  | nil => intro x z hz; simp at hz
  | cons y ys ih =>
    intro x z hz
    rw [selectMin_cons]
    rcases List.mem_cons.mp hz with rfl | hz
    · by_cases hc : k z < k x
      · rw [if_pos hc]; exact selectMin_le_base k ys z
      · rw [if_neg hc]; exact le_trans (selectMin_le_base k ys x) (le_of_not_lt hc)
    · by_cases hc : k y < k x
      · rw [if_pos hc]; exact ih y z hz
      · rw [if_neg hc]; exact ih x z hz

lemma selectMin_min (k : α → Nat) (x : α) (xs : List α) :
    ∀ y ∈ x :: xs, k (selectMin k x xs) ≤ k y := by
  intro y hy
  rcases List.mem_cons.mp hy with rfl | hy
  · exact selectMin_le_base k xs y
  · exact selectMin_le_mem k xs x y hy

/-! ## C4: get_eligible_partition returns a legal, sibling-minimal partition -/

/-- C4.  Whenever `self` holds at least one partition absent from `dest` (the
valid-source candidate list is non-empty), `get_eligible_partition` succeeds
and returns a pair `(p, c)` where `p` is one of `self`'s partitions, `p` is
not held by `dest`, `c` is `p`'s sibling count against the valid destination
partitions, and `c` is minimal among the sibling counts of all valid source
candidates. -/
theorem get_eligible_partition_valid (self dest : BId) (s : ClusterState)
    (h : validSourcePartitions self dest s ≠ []) :
    get_eligible_partition self dest s = .ok (eligiblePair self dest s) ∧
    (eligiblePair self dest s).1 ∈ s.brokerParts self ∧
    (eligiblePair self dest s).1 ∉ s.brokerParts dest ∧
    (eligiblePair self dest s).2 =
      count_siblings (eligiblePair self dest s).1 (validDestPartitions self dest s) ∧
    (validSourcePartitions self dest s).all (minimalB self dest s) = true := by
  cases hsrc : validSourcePartitions self dest s with
  | nil => exact absurd hsrc h
  | cons x xs =>
    have hok : get_eligible_partition self dest s =
        .ok (selectMin (fun p => count_siblings p (validDestPartitions self dest s)) x xs,
          count_siblings
            (selectMin (fun p => count_siblings p (validDestPartitions self dest s)) x xs)
            (validDestPartitions self dest s)) := by
      rw [get_eligible_partition, hsrc]
      rfl
    have hpair : eligiblePair self dest s =
        (selectMin (fun p => count_siblings p (validDestPartitions self dest s)) x xs,
          count_siblings
            (selectMin (fun p => count_siblings p (validDestPartitions self dest s)) x xs)
            (validDestPartitions self dest s)) := by
      rw [eligiblePair, hok]
    have hmem : (eligiblePair self dest s).1 ∈ validSourcePartitions self dest s := by
      rw [hpair, hsrc]
      exact selectMin_mem _ xs x
    have hfil := List.mem_filter.mp (by rw [validSourcePartitions] at hmem; exact hmem)
    refine ⟨by rw [hok, hpair], hfil.1, of_decide_eq_true hfil.2, by rw [hpair], ?_⟩
    rw [List.all_eq_true]
    intro q hq
    rw [minimalB, hpair]
    simp only [decide_eq_true_eq]
    exact selectMin_min (fun p => count_siblings p (validDestPartitions self dest s)) x xs q hq

def sW4 : ClusterState :=
  { brokers := [0, 1], parts := [⟨0, 0⟩, ⟨1, 0⟩],
    replicas := fun p => if p = ⟨0, 0⟩ then [0] else if p = ⟨1, 0⟩ then [1] else [],
    brokerParts := fun b => if b = 0 then [⟨0, 0⟩] else if b = 1 then [⟨1, 0⟩] else [] }

/-- Witness for C4: broker 0 holds (0,0), broker 1 holds (1,0); the eligible
partition from 0 to 1 exists. -/
theorem get_eligible_partition_valid_witness :
    get_eligible_partition 0 1 sW4 = .ok (eligiblePair 0 1 sW4) ∧
    (eligiblePair 0 1 sW4).1 ∈ sW4.brokerParts 0 ∧
    (eligiblePair 0 1 sW4).1 ∉ sW4.brokerParts 1 ∧
    (eligiblePair 0 1 sW4).2 =
      count_siblings (eligiblePair 0 1 sW4).1 (validDestPartitions 0 1 sW4) ∧
    (validSourcePartitions 0 1 sW4).all (minimalB 0 1 sW4) = true :=
  get_eligible_partition_valid 0 1 sW4 (by decide)

/-! ## C6: empty candidate set yields a distinct error, not a partition -/

/-- C6.  When every partition of `self` is already held by `dest` (the
valid-source list is empty), `get_eligible_partition` does not return a
partition: `min` over the empty candidate list raises ValueError with Python's
"min() arg is an empty sequence" message, which is not of the
"Partition: ... not found in broker ..." shape that `remove_partition` raises
(C7's theorem shows every not-found message has that shape). -/
theorem empty_valid_source_signals_distinct_error (self dest : BId) (s : ClusterState)
    (h : validSourcePartitions self dest s = []) :
    get_eligible_partition self dest s = .error (.valueError emptyMinMsg) ∧
    isNotFoundShape emptyMinMsg = false := by
  refine ⟨?_, by decide⟩
  rw [get_eligible_partition, h]
  rfl

def sW6 : ClusterState :=
  { brokers := [0, 1], parts := [⟨0, 0⟩],
    replicas := fun p => if p = ⟨0, 0⟩ then [0, 1] else [],
    brokerParts := fun _ => [⟨0, 0⟩] }

/-- Witness for C6: brokers 0 and 1 both hold (0,0), so there is no legal move
from 0 to 1. -/
theorem empty_valid_source_signals_distinct_error_witness :
    get_eligible_partition 0 1 sW6 = .error (.valueError emptyMinMsg) ∧
    isNotFoundShape emptyMinMsg = false :=
  empty_valid_source_signals_distinct_error 0 1 sW6 (by decide)

/-! ## decrease_leader_count: loop facts -/

lemma bump_self (self f : BId) (lpb : BId → Int) (hne : f ≠ self) :
    bump self f lpb self = lpb self - 1 := by
  simp only [bump, if_pos rfl]
  rw [if_neg (Ne.symm hne)]

lemma dlcGo_cons_some (self : BId) (opt : Int) (p : PKey) (rest : List PKey)
    (s : ClusterState) (lpb : BId → Int) (f : BId)
    (hf : (s.replicas p).tail.find? (swapCond lpb self opt) = some f) :
    dlcGo self opt (p :: rest) s lpb =
      if bump self f lpb self = opt then
        ⟨swap_leader p f s, bump self f lpb, [⟨p, f, lpb self, lpb f⟩]⟩
      else
        ⟨(dlcGo self opt rest (swap_leader p f s) (bump self f lpb)).state,
          (dlcGo self opt rest (swap_leader p f s) (bump self f lpb)).leaders,
          ⟨p, f, lpb self, lpb f⟩ ::
            (dlcGo self opt rest (swap_leader p f s) (bump self f lpb)).swaps⟩ := by
  simp [dlcGo, hf]

lemma dlcGo_cons_none (self : BId) (opt : Int) (p : PKey) (rest : List PKey)
    (s : ClusterState) (lpb : BId → Int)
    (hf : (s.replicas p).tail.find? (swapCond lpb self opt) = none) :
    dlcGo self opt (p :: rest) s lpb =
      if lpb self = opt then ⟨s, lpb, []⟩ else dlcGo self opt rest s lpb := by
  simp [dlcGo, hf]

lemma dlcGo_count (self : BId) (opt : Int) :
    ∀ (cands : List PKey) (s : ClusterState) (lpb : BId → Int),
      (dlcGo self opt cands s lpb).leaders self =
        lpb self - (dlcGo self opt cands s lpb).swaps.length ∧
      ∀ ev ∈ (dlcGo self opt cands s lpb).swaps,
        ev.lpbNewBefore ≤ opt ∧ ev.lpbSelfBefore - ev.lpbNewBefore > 1 := by
  intro cands
  induction cands with
  | nil => intro s lpb; simp [dlcGo]
  | cons p rest ih =>
    intro s lpb
    cases hf : (s.replicas p).tail.find? (swapCond lpb self opt) with
    | some f =>
      have hcond := List.find?_some hf
      simp only [swapCond, Bool.and_eq_true, decide_eq_true_eq] at hcond
      have hne : f ≠ self := by rintro rfl; omega
      have hb := bump_self self f lpb hne
      rw [dlcGo_cons_some self opt p rest s lpb f hf]
      by_cases hstop : bump self f lpb self = opt
      · rw [if_pos hstop]
        refine ⟨?_, ?_⟩
        · simp only [List.length_cons, List.length_nil]
          rw [hb]
          norm_num
        · intro ev hev
          simp only [List.mem_singleton] at hev
          subst hev
          exact ⟨hcond.1, hcond.2⟩
      · rw [if_neg hstop]
        obtain ⟨ih1, ih2⟩ := ih (swap_leader p f s) (bump self f lpb)
        refine ⟨?_, ?_⟩
        · simp only [List.length_cons]
          rw [ih1, hb]
          push_cast
          ring
        · intro ev hev
          rcases List.mem_cons.mp hev with rfl | hev
          · exact ⟨hcond.1, hcond.2⟩
          · exact ih2 ev hev
    | none =>
      rw [dlcGo_cons_none self opt p rest s lpb hf]
      by_cases hstop : lpb self = opt
      · rw [if_pos hstop]; simp
      · rw [if_neg hstop]; exact ih s lpb

lemma dlcGo_ge (self : BId) (opt : Int) :
    ∀ (cands : List PKey) (s : ClusterState) (lpb : BId → Int), opt < lpb self →
      opt ≤ (dlcGo self opt cands s lpb).leaders self ∧
      ∀ ev ∈ (dlcGo self opt cands s lpb).swaps, opt < ev.lpbSelfBefore := by
  intro cands
  induction cands with
  | nil => intro s lpb h; simpa [dlcGo] using le_of_lt h
  | cons p rest ih =>
    intro s lpb h
    cases hf : (s.replicas p).tail.find? (swapCond lpb self opt) with
    | some f =>
      have hcond := List.find?_some hf
      simp only [swapCond, Bool.and_eq_true, decide_eq_true_eq] at hcond
      have hne : f ≠ self := by rintro rfl; omega
      have hb := bump_self self f lpb hne
      rw [dlcGo_cons_some self opt p rest s lpb f hf]
      by_cases hstop : bump self f lpb self = opt
      · rw [if_pos hstop]
        refine ⟨le_of_eq hstop.symm, ?_⟩
        intro ev hev
        simp only [List.mem_singleton] at hev
        subst hev
        exact h
      · rw [if_neg hstop]
        have hgt : opt < bump self f lpb self := by rw [hb] at hstop ⊢; omega
        obtain ⟨ih1, ih2⟩ := ih (swap_leader p f s) (bump self f lpb) hgt
        refine ⟨ih1, ?_⟩
        intro ev hev
        rcases List.mem_cons.mp hev with rfl | hev
        · exact h
        · exact ih2 ev hev
    | none =>
      rw [dlcGo_cons_none self opt p rest s lpb hf]
      by_cases hstop : lpb self = opt
      · rw [if_pos hstop]; simp [hstop]
      · rw [if_neg hstop]; exact ih s lpb h

/-! ## C2: decrease_leader_count converges to opt_count, never below -/

/-- C2.  If broker `self` starts with leader count above `opt` and, along the
run, enough examined candidates fire (the run performs at least
`lpb self - opt` swaps — the formal counterpart of "at least L - opt_count
candidates each have a follower satisfying the swap condition at the time it
is examined", since a firing candidate is exactly one on which the loop
performs a swap), then `decrease_leader_count` ends with `self`'s leader count
exactly `opt`, and the count never drops below `opt` at any point of the call
(after each swap it is `lpbSelfBefore - 1 ≥ opt`). -/
theorem decrease_leader_count_reaches_opt (self : BId) (partitions : List PKey)
    (lpb : BId → Int) (opt : Int) (s : ClusterState)
    (h1 : opt < lpb self)
    (h2 : lpb self - opt ≤
      ((decrease_leader_count self partitions lpb opt s).swaps.length : Int)) :
    (decrease_leader_count self partitions lpb opt s).leaders self = opt ∧
    neverBelow opt (decrease_leader_count self partitions lpb opt s).swaps = true := by
  unfold decrease_leader_count at h2 ⊢
  obtain ⟨hc, _⟩ := dlcGo_count self opt
    (partitions.filter fun p =>
      ((s.replicas p).head? == some self) && decide (1 < (s.replicas p).length)) s lpb
  obtain ⟨hg, hev⟩ := dlcGo_ge self opt
    (partitions.filter fun p =>
      ((s.replicas p).head? == some self) && decide (1 < (s.replicas p).length)) s lpb h1
  refine ⟨by omega, ?_⟩
  rw [neverBelow, List.all_eq_true]
  intro ev hev'
  rw [decide_eq_true_eq]
  have := hev ev hev'
  omega

def sW2 : ClusterState :=
  { brokers := [0, 1, 2], parts := [⟨0, 0⟩, ⟨0, 1⟩],
    replicas := fun p => if p = ⟨0, 0⟩ then [0, 1] else if p = ⟨0, 1⟩ then [0, 2] else [],
    brokerParts := fun b =>
      if b = 0 then [⟨0, 0⟩, ⟨0, 1⟩] else if b = 1 then [⟨0, 0⟩] else
      if b = 2 then [⟨0, 1⟩] else [] }

def lpbW2 : BId → Int := fun b => if b = 0 then 3 else 0

/-- Witness for C2: broker 0 leads both partitions (counts 3 vs opt 1); two
eligible followers fire, and the count lands exactly on 1. -/
theorem decrease_leader_count_reaches_opt_witness :
    (decrease_leader_count 0 [⟨0, 0⟩, ⟨0, 1⟩] lpbW2 1 sW2).leaders 0 = 1 ∧
    neverBelow 1 (decrease_leader_count 0 [⟨0, 0⟩, ⟨0, 1⟩] lpbW2 1 sW2).swaps = true :=
  decrease_leader_count_reaches_opt 0 [⟨0, 0⟩, ⟨0, 1⟩] lpbW2 1 sW2 (by decide) (by decide)

/-! ## C8: swaps happen only across a gap greater than one -/

/-- C8.  Every swap performed by `decrease_leader_count` happens at a moment
when `leaders_per_broker[self] - leaders_per_broker[follower] > 1`; no swap
is recorded with this gap at most 1. -/
theorem swap_only_when_gap_exceeds_one (self : BId) (partitions : List PKey)
    (lpb : BId → Int) (opt : Int) (s : ClusterState) (ev : DlcEvent)
    (hev : ev ∈ (decrease_leader_count self partitions lpb opt s).swaps) :
    ev.lpbSelfBefore - ev.lpbNewBefore > 1 := by
  unfold decrease_leader_count at hev
  exact ((dlcGo_count self opt
    (partitions.filter fun p =>
      ((s.replicas p).head? == some self) && decide (1 < (s.replicas p).length))
    s lpb).2 ev hev).2

/-- Witness for C8: the first swap of the C2 scenario is recorded with counts
3 versus 0, a gap greater than 1. -/
theorem swap_only_when_gap_exceeds_one_witness :
    (⟨⟨0, 0⟩, 1, 3, 0⟩ : DlcEvent) ∈
      (decrease_leader_count 0 [⟨0, 0⟩, ⟨0, 1⟩] lpbW2 1 sW2).swaps ∧
    (3 : Int) - 0 > 1 :=
  ⟨by decide,
    swap_only_when_gap_exceeds_one 0 [⟨0, 0⟩, ⟨0, 1⟩] lpbW2 1 sW2 ⟨⟨0, 0⟩, 1, 3, 0⟩
      (by decide)⟩

/-! ## C5: the promoted follower's count, before and after a swap -/

def sC5 : ClusterState :=
  { brokers := [0, 1], parts := [⟨0, 0⟩],
    replicas := fun p => if p = ⟨0, 0⟩ then [0, 1] else [],
    brokerParts := fun b => if b = 0 then [⟨0, 0⟩] else if b = 1 then [⟨0, 0⟩] else [] }

def lpbC5 : BId → Int := fun b => if b = 0 then 2 else 0

/-- Counterexample to C5 as stated: with `opt_count = 0`, broker 0 at count 2
and follower 1 at count 0, the swap condition holds (0 ≤ 0 and 2 - 0 > 1), so
`decrease_leader_count` promotes follower 1; immediately after that (only)
swap the promoted follower's count is 1, which is NOT ≤ opt_count = 0.  The
code only guarantees `leaders_per_broker[f] <= opt_count` BEFORE the swap. -/
theorem decrease_leader_count_can_exceed_opt_after_swap :
    (decrease_leader_count 0 [⟨0, 0⟩] lpbC5 0 sC5).swaps = [⟨⟨0, 0⟩, 1, 2, 0⟩] ∧
    (decrease_leader_count 0 [⟨0, 0⟩] lpbC5 0 sC5).leaders 1 = 1 ∧
    ¬((decrease_leader_count 0 [⟨0, 0⟩] lpbC5 0 sC5).leaders 1 ≤ 0) := by decide

/-- C5 (amended).  A follower `f` is promoted only if
`leaders_per_broker[f] <= opt_count` immediately before the swap; hence
immediately after the swap its count is at most `opt_count + 1` (it can equal
`opt_count + 1`, i.e. one above the target — see the counterexample). -/
theorem promoted_follower_at_most_opt_before_swap (self : BId) (partitions : List PKey)
    (lpb : BId → Int) (opt : Int) (s : ClusterState) (ev : DlcEvent)
    (hev : ev ∈ (decrease_leader_count self partitions lpb opt s).swaps) :
    ev.lpbNewBefore ≤ opt ∧ ev.lpbNewBefore + 1 ≤ opt + 1 := by
  unfold decrease_leader_count at hev
  have h := ((dlcGo_count self opt
    (partitions.filter fun p =>
      ((s.replicas p).head? == some self) && decide (1 < (s.replicas p).length))
    s lpb).2 ev hev).1
  exact ⟨h, by omega⟩

/-- Witness for the amended C5 at the second swap of the C2 scenario. -/
theorem promoted_follower_at_most_opt_before_swap_witness :
    (⟨⟨0, 1⟩, 2, 2, 0⟩ : DlcEvent) ∈
      (decrease_leader_count 0 [⟨0, 0⟩, ⟨0, 1⟩] lpbW2 1 sW2).swaps ∧
    ((0 : Int) ≤ 1 ∧ (0 : Int) + 1 ≤ 1 + 1) :=
  ⟨by decide,
    promoted_follower_at_most_opt_before_swap 0 [⟨0, 0⟩, ⟨0, 1⟩] lpbW2 1 sW2
      ⟨⟨0, 1⟩, 2, 2, 0⟩ (by decide)⟩

/-! ## C1: invariant preservation -/

lemma Invs_addEffect (b : BId) (p : PKey) (s : ClusterState)
    (hb : b ∈ s.brokers) (hp : p ∈ s.parts) (hmem : p ∉ s.brokerParts b)
    (h : Invs s) : Invs (addEffect b p s) := by
  obtain ⟨h1, h2, h3⟩ := h
  have hbrep : b ∉ s.replicas p := fun hc => hmem ((h1 b hb p hp).mpr hc)
  refine ⟨?_, ?_, ?_⟩
  · intro b2 hb2 q hq
    simp only [addEffect] at hb2 hq ⊢
    by_cases e1 : b2 = b <;> by_cases e2 : q = p
    · subst e1; subst e2
      rw [if_pos rfl, if_pos rfl]
      simp
    · subst e1
      rw [if_pos rfl, if_neg e2]
      constructor
      · intro hm
        rcases List.mem_append.mp hm with hmm | hmm
        · exact (h1 b2 hb2 q hq).mp hmm
        · simp only [List.mem_singleton] at hmm
          exact absurd hmm e2
      · intro hr
        exact List.mem_append_left _ ((h1 b2 hb2 q hq).mpr hr)
    · subst e2
      rw [if_neg e1, if_pos rfl]
      constructor
      · intro hm
        exact List.mem_append_left _ ((h1 b2 hb2 q hq).mp hm)
      · intro hr
        rcases List.mem_append.mp hr with hrr | hrr
        · exact (h1 b2 hb2 q hq).mpr hrr
        · simp only [List.mem_singleton] at hrr
          exact absurd hrr e1
    · rw [if_neg e1, if_neg e2]
      exact h1 b2 hb2 q hq
  · intro b2 hb2
    simp only [addEffect] at hb2 ⊢
    by_cases e1 : b2 = b
    · subst e1
      rw [if_pos rfl, List.nodup_append]
      refine ⟨h2 b2 hb2, List.nodup_singleton p, ?_⟩
      intro a ha hpa
      simp only [List.mem_singleton] at hpa
      subst hpa
      exact hmem ha
    · rw [if_neg e1]
      exact h2 b2 hb2
  · intro q hq
    simp only [addEffect] at hq ⊢
    by_cases e2 : q = p
    · subst e2
      rw [if_pos rfl, List.nodup_append]
      refine ⟨h3 q hq, List.nodup_singleton b, ?_⟩
      intro a ha hba
      simp only [List.mem_singleton] at hba
      subst hba
      exact hbrep ha
    · rw [if_neg e2]
      exact h3 q hq

lemma Invs_removeEffect (b : BId) (p : PKey) (s : ClusterState)
    (h : Invs s) : Invs (removeEffect b p s) := by
  obtain ⟨h1, h2, h3⟩ := h
  refine ⟨?_, ?_, ?_⟩
  · intro b2 hb2 q hq
    simp only [removeEffect] at hb2 hq ⊢
    by_cases e1 : b2 = b <;> by_cases e2 : q = p
    · subst e1; subst e2
      rw [if_pos rfl, if_pos rfl]
      constructor
      · intro hc
        exact absurd hc ((h2 b2 hb2).not_mem_erase)
      · intro hc
        exact absurd hc ((h3 q hq).not_mem_erase)
    · subst e1
      rw [if_pos rfl, if_neg e2, List.mem_erase_of_ne e2]
      exact h1 b2 hb2 q hq
    · subst e2
      rw [if_neg e1, if_pos rfl, List.mem_erase_of_ne e1]
      exact h1 b2 hb2 q hq
    · rw [if_neg e1, if_neg e2]
      exact h1 b2 hb2 q hq
  · intro b2 hb2
    simp only [removeEffect] at hb2 ⊢
    by_cases e1 : b2 = b
    · subst e1
      rw [if_pos rfl]
      exact (h2 b2 hb2).erase p
    · rw [if_neg e1]
      exact h2 b2 hb2
  · intro q hq
    simp only [removeEffect] at hq ⊢
    by_cases e2 : q = p
    · subst e2
      rw [if_pos rfl]
      exact (h3 q hq).erase b
    · rw [if_neg e2]
      exact h3 q hq

lemma add_partition_ok_eq (b : BId) (p : PKey) (s s1 : ClusterState)
    (hok : add_partition b p s = .ok s1) :
    p ∉ s.brokerParts b ∧ s1 = addEffect b p s := by
  rw [add_partition] at hok
  by_cases hmem : p ∈ s.brokerParts b
  · rw [if_pos hmem] at hok
    simp at hok
  · rw [if_neg hmem] at hok
    refine ⟨hmem, ?_⟩
    injection hok with h'
    exact h'.symm

lemma remove_partition_ok_eq (b : BId) (p : PKey) (s s1 : ClusterState)
    (hok : remove_partition b p s = .ok s1) :
    p ∈ s.brokerParts b ∧ s1 = removeEffect b p s := by
  rw [remove_partition] at hok
  by_cases hmem : p ∈ s.brokerParts b
  · rw [if_pos hmem] at hok
    refine ⟨hmem, ?_⟩
    injection hok with h'
    exact h'.symm
  · rw [if_neg hmem] at hok
    simp at hok

lemma applyOp_ok_invs (op : Op) (s s1 : ClusterState)
    (hdom : opWithin s op) (h : Invs s) (hok : applyOp op s = .ok s1) :
    Invs s1 ∧ s1.brokers = s.brokers ∧ s1.parts = s.parts := by
  cases op with
  | add b p =>
    simp only [applyOp] at hok
    obtain ⟨hmem, rfl⟩ := add_partition_ok_eq b p s s1 hok
    exact ⟨Invs_addEffect b p s hdom.1 hdom.2 hmem h, rfl, rfl⟩
  | remove b p =>
    simp only [applyOp] at hok
    obtain ⟨_, rfl⟩ := remove_partition_ok_eq b p s s1 hok
    exact ⟨Invs_removeEffect b p s h, rfl, rfl⟩
  | move a p c =>
    simp only [applyOp, move_partition] at hok
    cases hrem : remove_partition a p s with
    | error e =>
      rw [hrem] at hok
      simp at hok
    | ok smid =>
      rw [hrem] at hok
      obtain ⟨_, rfl⟩ := remove_partition_ok_eq a p s smid hrem
      obtain ⟨hmem2, rfl⟩ := add_partition_ok_eq c p (removeEffect a p s) s1 hok
      have hmid : Invs (removeEffect a p s) := Invs_removeEffect a p s h
      exact ⟨Invs_addEffect c p (removeEffect a p s) hdom.2.1 hdom.2.2 hmem2 hmid, rfl, rfl⟩

lemma statesOf_invs (ops : List Op) :
    ∀ s, Invs s → (∀ op ∈ ops, opWithin s op) → ∀ s1 ∈ statesOf ops s, Invs s1 := by
  induction ops with
  | nil =>
    intro s _ _ s1 h1
    simp [statesOf] at h1
  | cons op rest ih =>
    intro s hinv hdom s1 hs1
    rw [statesOf] at hs1
    cases hop : applyOp op s with
    | error e =>
      rw [hop] at hs1
      simp at hs1
    | ok s2 =>
      rw [hop] at hs1
      obtain ⟨hinv2, hbr, hpt⟩ :=
        applyOp_ok_invs op s s2 (hdom op (List.mem_cons_self op rest)) hinv hop
      rcases List.mem_cons.mp hs1 with rfl | hs1
      · exact hinv2
      · refine ih s2 hinv2 ?_ s1 hs1
        intro op2 hop2
        have hw := hdom op2 (List.mem_cons_of_mem _ hop2)
        cases op2 <;> simp only [opWithin] at hw ⊢ <;> rw [hbr, hpt] <;> exact hw

lemma invsB_iff (s : ClusterState) : invsB s = true ↔ Invs s := by
  rw [invsB, Bool.and_eq_true, Bool.and_eq_true]
  unfold inv1B inv2B repWFB Invs Inv1 Inv2 RepWF
  simp [List.all_eq_true, and_assoc]

lemma opWithinB_iff (s : ClusterState) (op : Op) :
    opWithinB s op = true ↔ opWithin s op := by
  cases op <;> simp [opWithinB, opWithin, and_assoc]

/-- C1.  For every sequence of successful `add_partition` /
`remove_partition` / `move_partition` calls on the cluster's brokers and
partitions, starting from a state satisfying Invariant I1 (bidirectional
membership) and Invariant I2 (no duplicate (topic, partition-index) entry in
any broker's set) — together with the Partition data model's standing
replica-uniqueness (`repWFB`, "uniqueness enforced" in the spec, whose
enforcing code is outside the given source) — I1 and I2 (and replica
uniqueness) hold after every call. -/
theorem broker_ops_preserve_invariants (ops : List Op) (s : ClusterState)
    (h1 : inv1B s = true) (h2 : inv2B s = true) (h3 : repWFB s = true)
    (hdom : ops.all (opWithinB s) = true) :
    (statesOf ops s).all invsB = true := by
  rw [List.all_eq_true]
  intro s1 hs1
  rw [invsB_iff]
  refine statesOf_invs ops s ?_ ?_ s1 hs1
  · rw [← invsB_iff, invsB, h1, h2, h3]
    rfl
  · intro op hop
    rw [← opWithinB_iff]
    exact List.all_eq_true.mp hdom op hop

def sW1 : ClusterState :=
  { brokers := [0, 1, 2, 3], parts := [⟨0, 0⟩, ⟨0, 1⟩],
    replicas := fun p => if p = ⟨0, 0⟩ then [0, 1] else if p = ⟨0, 1⟩ then [0, 2] else [],
    brokerParts := fun b =>
      if b = 0 then [⟨0, 0⟩, ⟨0, 1⟩] else if b = 1 then [⟨0, 0⟩] else
      if b = 2 then [⟨0, 1⟩] else [] }

def opsW1 : List Op := [.move 0 ⟨0, 0⟩ 3, .remove 1 ⟨0, 0⟩, .add 1 ⟨0, 0⟩]

/-- Witness for C1: a move, a remove and an add on a 4-broker topology, all
successful, keep all invariants. -/
theorem broker_ops_preserve_invariants_witness :
    (statesOf opsW1 sW1).all invsB = true :=
  broker_ops_preserve_invariants opsW1 sW1 (by decide) (by decide) (by decide) (by decide)
